import Mathlib

/-!
Verification of the distance-detection pipeline of this repository.

The development shallowly embeds, over `ℚ`, `ℤ` and explicit records, the
functions the specification's claims are about:

* `unwrap_ticks` from `src/acconeer/exptool/a121/_core/utils.py`
  (`unwrapTicks` below, with Python floor division rendered as `Int.fdiv`);
* the `Detector` planning and status logic from
  `src/acconeer/exptool/a121/algo/distance/_detector.py`
  (`createGroupPlans`, `getDetectorStatus`, `calibrateCloseRange`);
* the per-sweep processor helpers (`_find_peaks`, `interpolate_peaks`,
  `_apply_phase_jitter_compensation`); the module `_processors.py` is not
  part of the source tree (only its unit tests are), so those definitions
  are modelled from the specification and pinned against the in-tree tests.

Machine floats are embedded as exact rationals, complex samples as pairs of
rationals, and Python exceptions as `Except String`.
-/

namespace Gentry

/-! ## Python-style max/min over a list (`max(ticks)`, `min(ticks)`)

`pyMax`/`pyMin` equal Python's `max`/`min` on non-empty integer lists; on `[]`
they take the (never used) default `0`. -/

def pyMax (l : List Int) : Int := l.foldl max (l.headD 0)

def pyMin (l : List Int) : Int := l.foldl min (l.headD 0)

theorem foldl_max_init_le (l : List Int) (a : Int) : a ≤ l.foldl max a := by
  induction l generalizing a with
  | nil => exact le_refl a
  | cons b l ih => exact le_trans (le_max_left a b) (ih (max a b))

theorem le_foldl_max_of_mem {l : List Int} {x : Int} (a : Int) (hx : x ∈ l) :
    x ≤ l.foldl max a := by
  induction l generalizing a with
  | nil => cases hx
  | cons b l ih =>
    rcases List.mem_cons.mp hx with h | h
    · subst h
      exact le_trans (le_max_right a x) (foldl_max_init_le l (max a x))
    · exact ih (max a b) h

theorem foldl_max_mem (l : List Int) (a : Int) :
    l.foldl max a = a ∨ l.foldl max a ∈ l := by
  induction l generalizing a with
  | nil => exact Or.inl rfl
  | cons b l ih =>
    rcases ih (max a b) with h | h
    · rcases max_choice a b with hm | hm
      · exact Or.inl (by rw [List.foldl_cons, h, hm])
      · exact Or.inr (by rw [List.foldl_cons, h, hm]; exact List.mem_cons_self b l)
    · exact Or.inr (List.mem_cons_of_mem b h)

theorem foldl_min_le_init (l : List Int) (a : Int) : l.foldl min a ≤ a := by
  induction l generalizing a with
  | nil => exact le_refl a
  | cons b l ih => exact le_trans (ih (min a b)) (min_le_left a b)

theorem foldl_min_le_of_mem {l : List Int} {x : Int} (a : Int) (hx : x ∈ l) :
    l.foldl min a ≤ x := by
  induction l generalizing a with
  | nil => cases hx
  | cons b l ih =>
    rcases List.mem_cons.mp hx with h | h
    · subst h
      exact le_trans (foldl_min_le_init l (min a x)) (min_le_right a x)
    · exact ih (min a b) h

theorem foldl_min_mem (l : List Int) (a : Int) :
    l.foldl min a = a ∨ l.foldl min a ∈ l := by
  induction l generalizing a with
  | nil => exact Or.inl rfl
  | cons b l ih =>
    rcases ih (min a b) with h | h
    · rcases min_choice a b with hm | hm
      · exact Or.inl (by rw [List.foldl_cons, h, hm])
      · exact Or.inr (by rw [List.foldl_cons, h, hm]; exact List.mem_cons_self b l)
    · exact Or.inr (List.mem_cons_of_mem b h)

theorem le_pyMax_of_mem {l : List Int} {x : Int} (hx : x ∈ l) : x ≤ pyMax l :=
  le_foldl_max_of_mem _ hx

theorem pyMax_mem {l : List Int} (hl : l ≠ []) : pyMax l ∈ l := by
  rcases foldl_max_mem l (l.headD 0) with h | h
  · rw [pyMax, h]
    cases l with
    | nil => exact absurd rfl hl
    | cons a l => exact List.mem_cons_self a l
  · exact h

theorem pyMin_le_of_mem {l : List Int} {x : Int} (hx : x ∈ l) : pyMin l ≤ x :=
  foldl_min_le_of_mem _ hx

theorem pyMin_mem {l : List Int} (hl : l ≠ []) : pyMin l ∈ l := by
  rcases foldl_min_mem l (l.headD 0) with h | h
  · rw [pyMin, h]
    cases l with
    | nil => exact absurd rfl hl
    | cons a l => exact List.mem_cons_self a l
  · exact h

theorem foldl_max_map_add (l : List Int) (c a : Int) :
    (l.map (fun t => c + t)).foldl max (c + a) = c + l.foldl max a := by
  induction l generalizing a with
  | nil => rfl
  | cons b l ih =>
    simp only [List.map_cons, List.foldl_cons]
    rw [max_add_add_left]
    exact ih (max a b)

theorem pyMax_map_add {l : List Int} (c : Int) (hl : l ≠ []) :
    pyMax (l.map (fun t => c + t)) = c + pyMax l := by
  cases l with
  | nil => exact absurd rfl hl
  | cons a l =>
    simp only [pyMax, List.map_cons, List.headD_cons, List.foldl_cons, max_self]
    exact foldl_max_map_add l c a

theorem foldl_min_map_add (l : List Int) (c a : Int) :
    (l.map (fun t => c + t)).foldl min (c + a) = c + l.foldl min a := by
  induction l generalizing a with
  | nil => rfl
  | cons b l ih =>
    simp only [List.map_cons, List.foldl_cons]
    rw [min_add_add_left]
    exact ih (min a b)

theorem pyMin_map_add {l : List Int} (c : Int) (hl : l ≠ []) :
    pyMin (l.map (fun t => c + t)) = c + pyMin l := by
  cases l with
  | nil => exact absurd rfl hl
  | cons a l =>
    simp only [pyMin, List.map_cons, List.headD_cons, List.foldl_cons, min_self]
    exact foldl_min_map_add l c a

/-! ## `unwrap_ticks` (utils.py, lines 336-373)

Faithful embedding.  Python's `//` on `int` is floor division, `Int.fdiv`
here; `limit` is a parameter (`2^32` by default at call sites, `100` in the
repository's unit tests). -/

/-- Number of whole wrap periods the Python code adds for one tick:
`(minimum_tick - tick - 1) // limit + 1`. -/
def tickWraps (m limit t : Int) : Int := (m - t - 1).fdiv limit + 1

/-- The span adjustment: `if (max(ticks) - min(ticks)) > limit // 2`, add one
period to every tick below `limit // 2`. -/
def spanAdjust (ticks : List Int) (limit : Int) : List Int :=
  if limit.fdiv 2 < pyMax ticks - pyMin ticks then
    ticks.map (fun t => if t < limit.fdiv 2 then t + limit else t)
  else ticks

/-- `num_wraps = max((minimum_tick - tick - 1) // limit + 1 for tick in ticks)`. -/
def numWraps (ticks1 : List Int) (m limit : Int) : Int :=
  pyMax (ticks1.map (tickWraps m limit))

def unwrapTicks (ticks : List Int) (minimumTick : Option Int) (limit : Int) :
    Except String (List Int × Option Int) :=
  if ticks.isEmpty then Except.ok ([], none)
  else if ticks.any (fun t => t < 0 || limit ≤ t) then
    Except.error "Tick value out of bounds"
  else
    let ticks1 := spanAdjust ticks limit
    let ticks2 :=
      match minimumTick with
      | none => ticks1
      | some m => ticks1.map (fun t => numWraps ticks1 m limit * limit + t)
    Except.ok (ticks2, some (pyMax ticks2))

theorem spanAdjust_ne_nil {ticks : List Int} (L : Int) (hne : ticks ≠ []) :
    spanAdjust ticks L ≠ [] := by
  unfold spanAdjust
  split
  · simpa using hne
  · exact hne

theorem unwrapTicks_some_spec (ticks : List Int) (m L : Int)
    (hne : ticks ≠ []) (hb : ticks.any (fun t => t < 0 || L ≤ t) = false) :
    unwrapTicks ticks (some m) L =
      Except.ok
        ((spanAdjust ticks L).map
            (fun t => numWraps (spanAdjust ticks L) m L * L + t),
          some (pyMax ((spanAdjust ticks L).map
            (fun t => numWraps (spanAdjust ticks L) m L * L + t)))) := by
  unfold unwrapTicks
  rw [if_neg (by simp [hne]), if_neg (by simp [hb])]

/-- Adding `tickWraps m L t` periods to `t` reaches at least `m`. -/
theorem tickWraps_ge (m L t : Int) (hL : 0 < L) : m ≤ tickWraps m L t * L + t := by
  have h1 := Int.fdiv_add_fmod (m - t - 1) L
  have h2 := Int.fmod_lt_of_pos (m - t - 1) hL
  have h3 : tickWraps m L t * L = L * ((m - t - 1).fdiv L) + L := by
    unfold tickWraps; ring
  linarith

/-- Adding one period fewer than `tickWraps m L t` stays strictly below `m`. -/
theorem tickWraps_pred_lt (m L t : Int) (hL : 0 < L) :
    (tickWraps m L t - 1) * L + t < m := by
  have h1 := Int.fdiv_add_fmod (m - t - 1) L
  have h2 := Int.fmod_nonneg' (m - t - 1) hL
  have h3 : (tickWraps m L t - 1) * L = L * ((m - t - 1).fdiv L) := by
    unfold tickWraps; ring
  linarith

/-- Every tick shifted by the common `numWraps` count reaches at least `m`. -/
theorem mem_shift_numWraps_ge {l1 : List Int} {m L : Int} (hL : 0 < L)
    {x : Int} (hx : x ∈ l1.map (fun t => numWraps l1 m L * L + t)) : m ≤ x := by
  rcases List.mem_map.mp hx with ⟨t, ht, rfl⟩
  have hw : tickWraps m L t ≤ numWraps l1 m L :=
    le_pyMax_of_mem (List.mem_map_of_mem (tickWraps m L) ht)
  have := tickWraps_ge m L t hL
  nlinarith

/-- Shifting by a multiple of the period commutes with `tickWraps`. -/
theorem tickWraps_shift (m L t n : Int) (hL : 0 < L) :
    tickWraps m L (n * L + t) = tickWraps m L t - n := by
  unfold tickWraps
  have h0 : (0 : Int) ≤ L := le_of_lt hL
  have hA : m - (n * L + t) - 1 = (m - t - 1) + (-n) * L := by ring
  rw [hA, Int.fdiv_eq_ediv _ h0, Int.fdiv_eq_ediv _ h0,
    Int.add_mul_ediv_right _ _ (ne_of_gt hL)]
  ring

theorem any_out_of_bounds_false_iff (l : List Int) (L : Int) :
    l.any (fun t => t < 0 || L ≤ t) = false ↔ ∀ x ∈ l, 0 ≤ x ∧ x < L := by
  rw [List.any_eq_false]
  constructor
  · intro h x hx
    have := h x hx
    simp only [Bool.or_eq_true, decide_eq_true_eq, not_or, not_lt, not_le] at this
    exact ⟨this.1, this.2⟩
  · intro h x hx
    have := h x hx
    simp only [Bool.or_eq_true, decide_eq_true_eq, not_or, not_lt, not_le]
    exact ⟨this.1, this.2⟩

/-- C2 (amended form): with a known previous maximum `m`, `unwrap_ticks` shifts
the (possibly span-adjusted) batch by one uniform whole number of wrap periods
chosen so that every returned unwrapped tick is at least `m`; when the raw
batch spans at most half a period, the shift is uniform over the raw ticks and
is the smallest uniform shift reaching `m`; and `unwrap_ticks([10], 211)` with
limit 100 returns `([310], 310)`. -/
theorem unwrap_ticks_reaches_previous_max
    (ticks : List Int) (m L : Int) (out : List Int) (mx : Option Int)
    (hne : ticks ≠ []) (hL : 0 < L)
    (h : unwrapTicks ticks (some m) L = Except.ok (out, mx)) :
    (∀ x ∈ out, m ≤ x) ∧
      (pyMax ticks - pyMin ticks ≤ L.fdiv 2 →
        out = ticks.map (fun t => numWraps ticks m L * L + t) ∧
          ∃ t0 ∈ ticks, (numWraps ticks m L - 1) * L + t0 < m) ∧
      unwrapTicks [10] (some 211) 100 = Except.ok ([310], some 310) := by
  cases hany : ticks.any (fun t => t < 0 || L ≤ t) with
  | true =>
    exfalso
    unfold unwrapTicks at h
    rw [if_neg (by simp [hne]), hany] at h
    simp at h
  | false =>
    rw [unwrapTicks_some_spec ticks m L hne hany] at h
    simp only [Except.ok.injEq, Prod.mk.injEq] at h
    obtain ⟨hout, hmx⟩ := h
    refine ⟨?_, ?_, by rfl⟩
    · intro x hx
      rw [← hout] at hx
      exact mem_shift_numWraps_ge hL hx
    · intro hspan
      have hadj : spanAdjust ticks L = ticks := by
        unfold spanAdjust
        rw [if_neg (not_lt.mpr hspan)]
      rw [hadj] at hout
      refine ⟨hout.symm, ?_⟩
      have hmapne : ticks.map (tickWraps m L) ≠ [] := by
        simpa using hne
      have hmem := pyMax_mem hmapne
      rcases List.mem_map.mp hmem with ⟨t0, ht0, heq⟩
      refine ⟨t0, ht0, ?_⟩
      have : numWraps ticks m L = tickWraps m L t0 := by
        unfold numWraps
        exact heq.symm
      rw [this]
      exact tickWraps_pred_lt m L t0 hL

/-- C2 witness: `unwrap_ticks_reaches_previous_max` applied to the concrete
call `unwrap_ticks([10], 211)` with limit 100, which returns `([310], 310)`:
every returned tick is at least 211. -/
theorem unwrap_ticks_reaches_previous_max_witness : (211 : Int) ≤ 310 :=
  (unwrap_ticks_reaches_previous_max [10] 211 100 [310] (some 310)
    (by decide) (by decide) (by rfl)).1 310 (by decide)

/-- C2, counterexample to the claim as stated: `unwrap_ticks([10], 210)` with
limit 100 returns the tick 210, equal to (not strictly greater than) the
previous maximum — exactly the behaviour the repository's own unit test
expects; and on the batch `[90, 0]` with previous maximum 150 the two raw
ticks receive different numbers of wrap periods (one and two), so the added
count is not uniform over the raw batch when the span adjustment fires. -/
theorem unwrap_ticks_strictness_counterexample :
    unwrapTicks [10] (some 210) 100 = Except.ok ([210], some 210) ∧
      ¬ ((210 : Int) < 210) ∧
      unwrapTicks [90, 0] (some 150) 100 = Except.ok ([190, 200], some 200) ∧
      (190 : Int) = 90 + 1 * 100 ∧ (200 : Int) = 0 + 2 * 100 := by
  exact ⟨by rfl, by decide, by rfl, by decide, by decide⟩

theorem spanAdjust_of_none {ticks : List Int} {L : Int}
    (h : ¬ L.fdiv 2 < pyMax ticks - pyMin ticks) : spanAdjust ticks L = ticks := by
  unfold spanAdjust
  rw [if_neg h]

/-- C8 (amended form): tick unwrapping is monotonic — no returned unwrapped
tick is below the previous maximum `m` — and idempotent whenever the
re-application itself succeeds: if applying `unwrap_ticks` to the returned
ticks with the same `minimum_tick` does not raise, it returns the same ticks
and the same maximum. -/
theorem unwrap_ticks_idempotent_monotonic
    (ticks : List Int) (m L : Int) (out out2 : List Int) (mx mx2 : Option Int)
    (hL : 0 < L)
    (h1 : unwrapTicks ticks (some m) L = Except.ok (out, mx))
    (h2 : unwrapTicks out (some m) L = Except.ok (out2, mx2)) :
    out2 = out ∧ mx2 = mx ∧ ∀ x ∈ out, m ≤ x := by
  by_cases hne : ticks = []
  · subst hne
    have h1' : unwrapTicks ([] : List Int) (some m) L = Except.ok ([], none) := by rfl
    rw [h1'] at h1
    simp only [Except.ok.injEq, Prod.mk.injEq] at h1
    obtain ⟨hout, hmx⟩ := h1
    subst hout
    have h2' : unwrapTicks ([] : List Int) (some m) L = Except.ok ([], none) := by rfl
    rw [h2'] at h2
    simp only [Except.ok.injEq, Prod.mk.injEq] at h2
    exact ⟨h2.1.symm, by rw [h2.2.symm, hmx], by simp⟩
  · -- first call: extract bounds and the returned list
    cases hany1 : ticks.any (fun t => t < 0 || L ≤ t) with
    | true =>
      exfalso
      unfold unwrapTicks at h1
      rw [if_neg (by simp [hne]), hany1] at h1
      simp at h1
    | false =>
      rw [unwrapTicks_some_spec ticks m L hne hany1] at h1
      simp only [Except.ok.injEq, Prod.mk.injEq] at h1
      obtain ⟨hout, hmx⟩ := h1
      have hbound1 : ∀ x ∈ ticks, 0 ≤ x ∧ x < L :=
        (any_out_of_bounds_false_iff ticks L).mp hany1
      have houtne : out ≠ [] := by
        rw [← hout]
        simpa using spanAdjust_ne_nil L hne
      -- second call: bounds on the ticks returned by the first call
      cases hany2 : out.any (fun t => t < 0 || L ≤ t) with
      | true =>
        exfalso
        unfold unwrapTicks at h2
        rw [if_neg (by simp [houtne]), hany2] at h2
        simp at h2
      | false =>
        rw [unwrapTicks_some_spec out m L houtne hany2] at h2
        simp only [Except.ok.injEq, Prod.mk.injEq] at h2
        obtain ⟨hout2, hmx2⟩ := h2
        have hbound2 : ∀ x ∈ out, 0 ≤ x ∧ x < L :=
          (any_out_of_bounds_false_iff out L).mp hany2
        -- the first call cannot have fired the span adjustment
        have hspan1 : ¬ L.fdiv 2 < pyMax ticks - pyMin ticks := by
          intro hlt
          have hadj : spanAdjust ticks L =
              ticks.map (fun t => if t < L.fdiv 2 then t + L else t) := by
            unfold spanAdjust
            rw [if_pos hlt]
          have hminb := hbound1 _ (pyMin_mem hne)
          have hmaxb := hbound1 _ (pyMax_mem hne)
          have hhalf : L ≤ 2 * L.fdiv 2 + 1 := by
            have hdm := Int.fdiv_add_fmod L 2
            have hlt2 := Int.fmod_lt_of_pos L (show (0 : Int) < 2 by decide)
            linarith
          have hminlt : pyMin ticks < L.fdiv 2 := by linarith
          have hmaxge : ¬ pyMax ticks < L.fdiv 2 := by
            push_neg
            linarith
          -- the adjusted minimum lands outside [0, L) after the uniform shift
          have heq1 : (fun t => if t < L.fdiv 2 then t + L else t) (pyMin ticks) =
              pyMin ticks + L := if_pos hminlt
          have heq2 : (fun t => if t < L.fdiv 2 then t + L else t) (pyMax ticks) =
              pyMax ticks := if_neg hmaxge
          have hmem1 :
              numWraps (spanAdjust ticks L) m L * L + (pyMin ticks + L) ∈ out := by
            rw [← hout]
            refine List.mem_map_of_mem _ ?_
            rw [hadj]
            exact heq1 ▸ List.mem_map_of_mem _ (pyMin_mem hne)
          have hmem2 :
              numWraps (spanAdjust ticks L) m L * L + pyMax ticks ∈ out := by
            rw [← hout]
            refine List.mem_map_of_mem _ ?_
            rw [hadj]
            exact heq2 ▸ List.mem_map_of_mem _ (pyMax_mem hne)
          have hub := (hbound2 _ hmem1).2
          have hlb := (hbound2 _ hmem2).1
          -- hub forces a negative shift, hlb a non-negative one
          have hneg : numWraps (spanAdjust ticks L) m L < 0 := by
            by_contra hn
            push_neg at hn
            have : 0 ≤ numWraps (spanAdjust ticks L) m L * L :=
              mul_nonneg hn (le_of_lt hL)
            linarith
          have hpos : 0 ≤ numWraps (spanAdjust ticks L) m L := by
            by_contra hn
            push_neg at hn
            have hle : numWraps (spanAdjust ticks L) m L ≤ -1 := by linarith
            have : numWraps (spanAdjust ticks L) m L * L ≤ (-1) * L :=
              mul_le_mul_of_nonneg_right hle (le_of_lt hL)
            linarith
          linarith
        have hadj1 : spanAdjust ticks L = ticks := spanAdjust_of_none hspan1
        rw [hadj1] at hout
        -- the second call does not fire the span adjustment either
        have hspan2 : ¬ L.fdiv 2 < pyMax out - pyMin out := by
          rw [← hout, pyMax_map_add _ hne, pyMin_map_add _ hne]
          have hmm : numWraps ticks m L * L + pyMax ticks -
              (numWraps ticks m L * L + pyMin ticks) =
              pyMax ticks - pyMin ticks := by ring
          rw [hmm]
          exact hspan1
        have hadj2 : spanAdjust out L = out := spanAdjust_of_none hspan2
        rw [hadj2] at hout2 hmx2
        -- the second shift count is zero
        have hnw2 : numWraps out m L = 0 := by
          unfold numWraps
          rw [← hout, List.map_map]
          have hfun : (tickWraps m L ∘ fun t => numWraps ticks m L * L + t) =
              fun t => -(numWraps ticks m L) + tickWraps m L t := by
            funext t
            simp only [Function.comp_apply]
            rw [tickWraps_shift m L t _ hL]
            ring
          rw [hfun]
          have hmm : (ticks.map fun t => -(numWraps ticks m L) + tickWraps m L t) =
              (ticks.map (tickWraps m L)).map
                (fun x => -(numWraps ticks m L) + x) := by
            rw [List.map_map]
            rfl
          rw [hmm, pyMax_map_add _ (by simpa using hne)]
          unfold numWraps
          ring
        rw [hnw2] at hout2 hmx2
        have hid : out.map (fun t => 0 * L + t) = out := by
          simp
        rw [hid] at hout2 hmx2
        refine ⟨hout2.symm, ?_, ?_⟩
        · rw [← hmx2, ← hmx, hadj1, hout]
        · intro x hx
          rw [← hout] at hx
          exact mem_shift_numWraps_ge hL hx

/-- C8 witness: `unwrap_ticks_idempotent_monotonic` applied to the concrete
call `unwrap_ticks([10], 0)` with limit 100, whose re-application succeeds and
returns the same ticks and maximum. -/
theorem unwrap_ticks_idempotent_monotonic_witness :
    ([10] : List Int) = [10] ∧ (some (10 : Int)) = some 10 ∧ (0 : Int) ≤ 10 :=
  have h := unwrap_ticks_idempotent_monotonic [10] 0 100 [10] [10] (some 10)
    (some 10) (by decide) (by rfl) (by rfl)
  ⟨h.1, h.2.1, h.2.2 10 (by decide)⟩

/-- C8, counterexample to the claim as stated: `unwrap_ticks([10], 211)` with
limit 100 succeeds and returns `([310], 310)`, but re-applying `unwrap_ticks`
to the returned ticks with the same `minimum_tick` raises `Tick value out of
bounds` (310 is outside `[0, 100)`) instead of returning the same ticks. -/
theorem unwrap_ticks_not_idempotent_counterexample :
    unwrapTicks [10] (some 211) 100 = Except.ok ([310], some 310) ∧
      unwrapTicks [310] (some 211) 100 =
        Except.error "Tick value out of bounds" := by
  exact ⟨by rfl, by rfl⟩

/-! ## Per-sweep processor helpers

`_processors.py` is not part of the source tree; only its unit tests
(`tests/unit/a121/algo/distance/test_processor.py`) are.  The definitions in
this section are therefore modelled from the specification (§4.3) and checked
against the expected values of those in-tree tests.  Float amplitudes are
embedded as exact rationals. -/

/-- Modelled from the spec: `Processor._find_peaks` is absent from src.  A bin
is a peak if its amplitude exceeds the threshold at that bin and is a local
maximum, `a[i] > a[i-1]` and `a[i] ≥ a[i+1]` (ties broken toward the earlier
index). -/
def find_peaks (absSweep threshold : List ℚ) : List ℕ :=
  (List.range absSweep.length).filter (fun i =>
    decide (0 < i) && decide (i + 1 < absSweep.length) &&
    decide (threshold.getD i 0 < absSweep.getD i 0) &&
    decide (absSweep.getD (i - 1) 0 < absSweep.getD i 0) &&
    decide (absSweep.getD (i + 1) 0 ≤ absSweep.getD i 0))

/-- C5: a bin is reported as a peak exactly when its amplitude exceeds the
threshold there and `a[i] > a[i-1]`, `a[i] ≥ a[i+1]` (so a two-bin plateau is
reported once, at its first index); on
`[1,2,3,2,1,1,1,1,1,2,3,2,1,1,1]` with an all-ones threshold the peaks are
exactly `[2, 10]`, as the repository's unit test expects. -/
theorem find_peaks_characterization :
    (∀ (absSweep threshold : List ℚ) (i : ℕ),
      i ∈ find_peaks absSweep threshold ↔
        0 < i ∧ i + 1 < absSweep.length ∧
          threshold.getD i 0 < absSweep.getD i 0 ∧
          absSweep.getD (i - 1) 0 < absSweep.getD i 0 ∧
          absSweep.getD (i + 1) 0 ≤ absSweep.getD i 0) ∧
    find_peaks [1, 2, 3, 2, 1, 1, 1, 1, 1, 2, 3, 2, 1, 1, 1]
      (List.replicate 15 1) = [2, 10] := by
  constructor
  · intro a t i
    unfold find_peaks
    rw [List.mem_filter, List.mem_range]
    simp only [Bool.and_eq_true, decide_eq_true_eq]
    constructor
    · rintro ⟨-, ⟨⟨⟨h1, h2⟩, h3⟩, h4⟩, h5⟩
      exact ⟨h1, h2, h3, h4, h5⟩
    · rintro ⟨h1, h2, h3, h4, h5⟩
      exact ⟨by omega, ⟨⟨⟨h1, h2⟩, h3⟩, h4⟩, h5⟩
  · rfl

/-- Modelled from the spec: the fractional-bin offset of
`Processor.interpolate_peaks` (absent from src),
`0.5 * (a[i-1] - a[i+1]) / (a[i-1] - 2a[i] + a[i+1])`. -/
def peakOffset (absSweep : List ℚ) (i : ℕ) : ℚ :=
  let y0 := absSweep.getD (i - 1) 0
  let y1 := absSweep.getD i 0
  let y2 := absSweep.getD (i + 1) 0
  (1 / 2) * (y0 - y2) / (y0 - 2 * y1 + y2)

/-- Modelled from the spec: coefficients `(c0, c1, c2)` of the parabola
`c0 + c1 x + c2 x²` through the three samples `(-1, a[i-1])`, `(0, a[i])`,
`(1, a[i+1])` around a peak. -/
def parabolaCoeffs (absSweep : List ℚ) (i : ℕ) : ℚ × ℚ × ℚ :=
  let y0 := absSweep.getD (i - 1) 0
  let y1 := absSweep.getD i 0
  let y2 := absSweep.getD (i + 1) 0
  (y1, (y2 - y0) / 2, (y0 - 2 * y1 + y2) / 2)

/-- Modelled from the spec: the refined amplitude is the interpolating
parabola evaluated at the fractional-bin offset (its vertex). -/
def peakAmplitude (absSweep : List ℚ) (i : ℕ) : ℚ :=
  let c := parabolaCoeffs absSweep i
  c.1 + c.2.1 * peakOffset absSweep i + c.2.2 * peakOffset absSweep i ^ 2

/-- Modelled from the spec: the refined distance
`(index + offset) * step_length_m + start_offset_m`. -/
def peakDistance (absSweep : List ℚ) (i : ℕ) (stepLengthM startOffsetM : ℚ) : ℚ :=
  ((i : ℚ) + peakOffset absSweep i) * stepLengthM + startOffsetM

/-- Modelled from the spec: `Processor.interpolate_peaks` (absent from src)
returns the refined distances and amplitudes of the given peak indices. -/
def interpolate_peaks (absSweep : List ℚ) (peakIdxs : List ℕ)
    (stepLengthM startOffsetM : ℚ) : List ℚ × List ℚ :=
  (peakIdxs.map (fun i => peakDistance absSweep i stepLengthM startOffsetM),
    peakIdxs.map (fun i => peakAmplitude absSweep i))

/-- C6: the fractional-bin offset is
`0.5 * (a[i-1]-a[i+1]) / (a[i-1] - 2a[i] + a[i+1])`; the refined amplitude is
the vertex value of the parabola through the three samples (the parabola fits
all three samples and has zero slope at the offset); the refined distance is
`(index + offset) * step_length_m + start_offset_m`; and the two unit-test
vectors hold exactly: `[1,2,3,2,1]`, peak 2, step 0.0025 m gives
distance 0.005 m and amplitude 3, and the plateau `[1,3,3,1]`, peak 1, gives
distance 0.00375 m and amplitude 3.25 — defined and finite. -/
theorem interpolate_peaks_parabola
    (a : List ℚ) (i : ℕ) (sm som : ℚ)
    (hden : a.getD (i - 1) 0 - 2 * a.getD i 0 + a.getD (i + 1) 0 ≠ 0) :
    peakOffset a i = (1 / 2) * (a.getD (i - 1) 0 - a.getD (i + 1) 0) /
        (a.getD (i - 1) 0 - 2 * a.getD i 0 + a.getD (i + 1) 0) ∧
      peakDistance a i sm som = ((i : ℚ) + peakOffset a i) * sm + som ∧
      (parabolaCoeffs a i).1 + (parabolaCoeffs a i).2.1 * (-1) +
          (parabolaCoeffs a i).2.2 * (-1) ^ 2 = a.getD (i - 1) 0 ∧
      (parabolaCoeffs a i).1 = a.getD i 0 ∧
      (parabolaCoeffs a i).1 + (parabolaCoeffs a i).2.1 * 1 +
          (parabolaCoeffs a i).2.2 * 1 ^ 2 = a.getD (i + 1) 0 ∧
      (parabolaCoeffs a i).2.1 + 2 * (parabolaCoeffs a i).2.2 * peakOffset a i = 0 ∧
      peakAmplitude a i = (parabolaCoeffs a i).1 +
          (parabolaCoeffs a i).2.1 * peakOffset a i +
          (parabolaCoeffs a i).2.2 * peakOffset a i ^ 2 ∧
      interpolate_peaks [1, 2, 3, 2, 1] [2] (1 / 400) 0 = ([1 / 200], [3]) ∧
      interpolate_peaks [1, 3, 3, 1] [1] (1 / 400) 0 = ([3 / 800], [13 / 4]) := by
  refine ⟨rfl, rfl, ?_, rfl, ?_, ?_, rfl, ?_, ?_⟩
  · simp only [parabolaCoeffs]
    ring
  · simp only [parabolaCoeffs]
    ring
  · have key : ∀ (y0 y1 y2 : ℚ), y0 - 2 * y1 + y2 ≠ 0 →
        (y2 - y0) / 2 + 2 * ((y0 - 2 * y1 + y2) / 2) *
          ((1 / 2) * (y0 - y2) / (y0 - 2 * y1 + y2)) = 0 := by
      intro y0 y1 y2 h
      field_simp
      ring
    exact key (a.getD (i - 1) 0) (a.getD i 0) (a.getD (i + 1) 0) hden
  · norm_num [interpolate_peaks, peakDistance, peakAmplitude, peakOffset,
      parabolaCoeffs]
  · norm_num [interpolate_peaks, peakDistance, peakAmplitude, peakOffset,
      parabolaCoeffs]

/-- C6 witness: the general part of `interpolate_peaks_parabola` applied to
the concrete plateau neighbourhood `[1,3,3,1]`, peak index 1, whose parabola
denominator is `-2 ≠ 0`. -/
theorem interpolate_peaks_parabola_witness :
    peakOffset [1, 3, 3, 1] 1 =
        (1 / 2) * (([1, 3, 3, 1] : List ℚ).getD 0 0 - ([1, 3, 3, 1] : List ℚ).getD 2 0) /
          (([1, 3, 3, 1] : List ℚ).getD 0 0 - 2 * ([1, 3, 3, 1] : List ℚ).getD 1 0 +
            ([1, 3, 3, 1] : List ℚ).getD 2 0) ∧
      (parabolaCoeffs [1, 3, 3, 1] 1).2.1 +
        2 * (parabolaCoeffs [1, 3, 3, 1] 1).2.2 * peakOffset [1, 3, 3, 1] 1 = 0 := by
  have h := interpolate_peaks_parabola [1, 3, 3, 1] 1 (1 / 400) 0 (by norm_num)
  exact ⟨h.1, h.2.2.2.2.2.1⟩

/-- Complex samples with exact rational components. -/
structure Cplx where
  re : ℚ
  im : ℚ
deriving DecidableEq, Repr

def Cplx.mul (a b : Cplx) : Cplx :=
  ⟨a.re * b.re - a.im * b.im, a.re * b.im + a.im * b.re⟩

def Cplx.sub (a b : Cplx) : Cplx := ⟨a.re - b.re, a.im - b.im⟩

/-- Modelled from the spec and the repository's unit test:
`Processor._apply_phase_jitter_compensation` is absent from src.  The raw
frame has the stored direct-leakage reference, rotated by the loopback angle
relative to the stored phase-jitter reference, subtracted from it:
`adjusted = raw - direct_leakage * exp(1j * (lb_angle - ref_angle))`.
`phaseFactor` stands for the value of `exp(1j * (lb_angle - ref_angle))`. -/
def apply_phase_jitter_compensation (frame directLeakage : List Cplx)
    (phaseFactor : Cplx) : List Cplx :=
  List.zipWith (fun f d => Cplx.sub f (Cplx.mul d phaseFactor)) frame directLeakage

/-- The frame of the repository's phase-jitter unit test:
`[0, 1+1j, 2+2j, 3+3j]`, also used there as the stored direct leakage. -/
def pjcTestFrame : List Cplx := [⟨0, 0⟩, ⟨1, 1⟩, ⟨2, 2⟩, ⟨3, 3⟩]

/-- C7 (amended form): compensation subtracts the direct-leakage reference
rotated by `exp(1j * (lb_angle - ref_angle))` from each raw sample; applied to
the test frame `[0, 1+1j, 2+2j, 3+3j]` against a π/2 loopback angle with a
zero stored reference (`phaseFactor = exp(1j·π/2) = i`) it yields exactly
`[0, 2+0j, 4+0j, 6+0j]`, as the repository's unit test expects. -/
theorem phase_jitter_compensation_subtracts_rotated_leakage
    (frame dl : List Cplx) (e : Cplx) (i : ℕ)
    (h1 : i < frame.length) (h2 : i < dl.length) :
    (apply_phase_jitter_compensation frame dl e).getD i ⟨0, 0⟩ =
        Cplx.sub (frame.getD i ⟨0, 0⟩) (Cplx.mul (dl.getD i ⟨0, 0⟩) e) ∧
      apply_phase_jitter_compensation pjcTestFrame pjcTestFrame ⟨0, 1⟩ =
        [⟨0, 0⟩, ⟨2, 0⟩, ⟨4, 0⟩, ⟨6, 0⟩] := by
  refine ⟨?_, by
    simp only [apply_phase_jitter_compensation, pjcTestFrame, List.zipWith,
      Cplx.mul, Cplx.sub, Cplx.mk.injEq, List.cons.injEq, and_true, List.zipWith_nil_right]
    norm_num⟩
  induction frame generalizing dl i with
  | nil => simp at h1
  | cons f fr ih =>
    cases dl with
    | nil => simp at h2
    | cons d dl =>
      cases i with
      | zero => rfl
      | succ n =>
        show (apply_phase_jitter_compensation fr dl e).getD n ⟨0, 0⟩ = _
        exact ih dl n (by simpa using h1) (by simpa using h2)

/-- C7 witness: `phase_jitter_compensation_subtracts_rotated_leakage` applied
to sample 1 of the unit-test frame. -/
theorem phase_jitter_compensation_witness :
    (apply_phase_jitter_compensation pjcTestFrame pjcTestFrame ⟨0, 1⟩).getD 1 ⟨0, 0⟩ =
      Cplx.sub (pjcTestFrame.getD 1 ⟨0, 0⟩)
        (Cplx.mul (pjcTestFrame.getD 1 ⟨0, 0⟩) ⟨0, 1⟩) :=
  (phase_jitter_compensation_subtracts_rotated_leakage pjcTestFrame pjcTestFrame
    ⟨0, 1⟩ 1 (by decide) (by decide)).1

/-- C7, counterexample to the claim as stated: the claim's formula
`adjusted = raw * exp(-1j * ref_angle)` with the zero stored reference of the
unit test multiplies each sample by `exp(0) = 1`, leaving the frame unchanged,
which differs from the `[0, 2+0j, 4+0j, 6+0j]` the same claim (and the
repository's unit test) requires the compensation to produce. -/
theorem phase_jitter_rotation_counterexample :
    apply_phase_jitter_compensation pjcTestFrame pjcTestFrame ⟨0, 1⟩ =
        [⟨0, 0⟩, ⟨2, 0⟩, ⟨4, 0⟩, ⟨6, 0⟩] ∧
      pjcTestFrame.map (fun f => Cplx.mul f ⟨1, 0⟩) = pjcTestFrame ∧
      pjcTestFrame ≠ [⟨0, 0⟩, ⟨2, 0⟩, ⟨4, 0⟩, ⟨6, 0⟩] := by
  refine ⟨by
      simp only [apply_phase_jitter_compensation, pjcTestFrame, List.zipWith,
        Cplx.mul, Cplx.sub, Cplx.mk.injEq, List.cons.injEq, and_true,
        List.zipWith_nil_right]
      norm_num,
    by
      simp only [pjcTestFrame, List.map_cons, List.map_nil, Cplx.mul,
        Cplx.mk.injEq, List.cons.injEq, and_true]
      norm_num,
    by
      simp only [pjcTestFrame, ne_eq, List.cons.injEq, Cplx.mk.injEq, not_and]
      norm_num⟩

/-! ## The distance Detector (`_detector.py`)

Embedding of the planning and status logic of
`src/acconeer/exptool/a121/algo/distance/_detector.py`.  Distances are exact
rationals.  The session-config type is a parameter `SC` with decidable
equality: `get_detector_status` only ever compares session configs for
equality, so the embedding takes the derivation
`_detector_to_session_config_and_processor_specs`'s session-config component
as a function parameter `scOf`.  The leakage-free minimum distance per
profile (`_calc_leakage_free_min_dist`) adds, under CFAR thresholding, a
margin computed by `Processor.calc_cfar_margin`, which lives in the absent
`_processors.py`; that margin is therefore a parameter of the embedding, and
the whole leakage-free distance table is abstracted as a parameter
`md : Profile → ℚ` of the plan functions. -/

inductive Profile
  | P1
  | P2
  | P3
  | P4
  | P5
deriving DecidableEq, Repr, Fintype

/-- The numeric value of the profile enum (`a121.Profile.PROFILE_n.value`). -/
def Profile.val : Profile → ℕ
  | .P1 => 1
  | .P2 => 2
  | .P3 => 3
  | .P4 => 4
  | .P5 => 5

inductive ThresholdMethod
  | CFAR
  | FIXED
  | RECORDED
deriving DecidableEq, Repr

inductive MeasurementType
  | CLOSE_RANGE
  | FAR_RANGE
deriving DecidableEq, Repr

/-- `DetectorConfig` restricted to the fields the planning and status logic
reads (`start_m`, `end_m`, `max_profile`, `threshold_method`); the remaining
fields (`max_step_length`, `signal_quality`, hwaas and sorting parameters)
only influence step lengths, gains and result ordering, which the claims do
not touch. -/
structure DetectorConfig where
  start_m : ℚ := mkRat 1 4
  end_m : ℚ := 3
  max_profile : Profile := .P5
  threshold_method : ThresholdMethod := .CFAR
deriving DecidableEq, Repr

def MIN_DIST_M : ℚ := 0

def MAX_DIST_M : ℚ := 17

/-- `Detector.MIN_LEAKAGE_FREE_DIST_M` (0.12, 0.28, 0.56, 0.76, 1.28 m). -/
def MIN_LEAKAGE_FREE_DIST_M : Profile → ℚ
  | .P1 => mkRat 12 100
  | .P2 => mkRat 28 100
  | .P3 => mkRat 56 100
  | .P4 => mkRat 76 100
  | .P5 => mkRat 128 100

/-- `Detector._valid_detector_config_range`:
`cls.MIN_DIST_M < config.start_m and config.end_m < cls.MAX_DIST_M`. -/
def validDetectorConfigRange (cfg : DetectorConfig) : Bool :=
  decide (MIN_DIST_M < cfg.start_m) && decide (cfg.end_m < MAX_DIST_M)

/-- `Detector._calc_leakage_free_min_dist`: the minimum leakage-free distance
per profile; under CFAR thresholding a profile-dependent margin (from the
absent `Processor.calc_cfar_margin`, here the parameter `cfarMarginM`) is
added. -/
def leakageFreeMinDist (cfarMarginM : Profile → ℚ) (cfg : DetectorConfig) :
    Profile → ℚ :=
  fun p => MIN_LEAKAGE_FREE_DIST_M p +
    (if cfg.threshold_method = ThresholdMethod.CFAR then cfarMarginM p else 0)

/-- A subsweep group plan at the meter level: the profile and the ordered
core breakpoints in meters handed to `Detector._create_group_plan`
(conversion to integer points and the edge margins of
`_add_margin_to_breakpoints` extend, by construction, only beyond the first
and last core breakpoint). -/
structure GroupPlanM where
  profile : Profile
  breakpoints_m : List ℚ
deriving DecidableEq, Repr

def planCoreLo (p : GroupPlanM) : ℚ := p.breakpoints_m.headD 0

def planCoreHi (p : GroupPlanM) : ℚ := p.breakpoints_m.getLastD 0

/-- The transition profile chain of `Detector._get_transition_group_plans`:
the profiles among `[PROFILE_1, PROFILE_3]` strictly below `max_profile`,
followed by `max_profile` itself. -/
def transitionProfiles (cfg : DetectorConfig) : List Profile :=
  ([Profile.P1, Profile.P3].filter (fun p => p.val < cfg.max_profile.val)) ++
    [cfg.max_profile]

/-- The loop body of `Detector._get_transition_group_plans` over consecutive
profile pairs of a chain: a segment `[max(md p, start), min(end, md q)]` is
emitted when `start < md q` and `md p < end`. -/
def transitionPlansOf (md : Profile → ℚ) (startM endM : ℚ)
    (chain : List Profile) : List GroupPlanM :=
  (chain.zip chain.tail).filterMap (fun pq =>
    if startM < md pq.2 ∧ md pq.1 < endM then
      some ⟨pq.1, [max (md pq.1) startM, min endM (md pq.2)]⟩
    else none)

/-- `Detector._get_transition_group_plans`. -/
def transitionGroupPlans (md : Profile → ℚ) (cfg : DetectorConfig) :
    List GroupPlanM :=
  transitionPlansOf md cfg.start_m cfg.end_m (transitionProfiles cfg)

/-- `np.linspace a b (n+1)`: `n+1` equally spaced points from `a` to `b`. -/
def linspace (a b : ℚ) (n : ℕ) : List ℚ :=
  (List.range (n + 1)).map (fun k : ℕ => a + (b - a) * (k : ℚ) / (n : ℚ))

/-- The body of `Detector._get_max_profile_group_plans` over an explicit
profile: one plan tiling `[max(start, md p), end]` into `n` equidistant
sub-segments, emitted when `md p < end`. -/
def maxPlansOf (md : Profile → ℚ) (startM endM : ℚ) (p : Profile) (n : ℕ) :
    List GroupPlanM :=
  if md p < endM then [⟨p, linspace (max startM (md p)) endM n⟩] else []

/-- `Detector._get_max_profile_group_plans`. -/
def maxProfileGroupPlans (md : Profile → ℚ) (cfg : DetectorConfig)
    (numRemaining : ℕ) : List GroupPlanM :=
  maxPlansOf md cfg.start_m cfg.end_m cfg.max_profile numRemaining

/-- `Detector.NUM_SUBSWEEPS_IN_SENSOR_CONFIG`. -/
def NUM_SUBSWEEPS_IN_SENSOR_CONFIG : ℕ := 4

/-- `Detector._create_group_plans` at the meter level: the close-range plan
(profile 1, `[start_m, md PROFILE_1]`, present when
`start_m < md PROFILE_1`) and the far-range plans (transition plans followed
by the max-profile plan). -/
def createGroupPlans (md : Profile → ℚ) (cfg : DetectorConfig) :
    List GroupPlanM × List GroupPlanM :=
  let closePlans :=
    if cfg.start_m < md Profile.P1 then
      [GroupPlanM.mk Profile.P1 [cfg.start_m, md Profile.P1]]
    else []
  let transPlans := transitionGroupPlans md cfg
  let maxPlans := maxProfileGroupPlans md cfg
    (NUM_SUBSWEEPS_IN_SENSOR_CONFIG - transPlans.length)
  (closePlans, transPlans ++ maxPlans)

/-- All group plans, close range first, as
`_detector_to_session_config_and_processor_specs` orders them. -/
def allGroupPlans (md : Profile → ℚ) (cfg : DetectorConfig) : List GroupPlanM :=
  (createGroupPlans md cfg).1 ++ (createGroupPlans md cfg).2

/-- `Detector._has_close_range_measurement`: the derived specs contain a
close-range one exactly when the plan dictionary has a close-range entry. -/
def hasCloseRangeMeasurement (md : Profile → ℚ) (cfg : DetectorConfig) : Bool :=
  !(createGroupPlans md cfg).1.isEmpty

/-- The threshold methods of the derived processor specs: `RECORDED` for the
close-range spec, `config.threshold_method` for each far-range plan. -/
def processorThresholdMethods (md : Profile → ℚ) (cfg : DetectorConfig) :
    List ThresholdMethod :=
  (if hasCloseRangeMeasurement md cfg then [ThresholdMethod.RECORDED] else []) ++
    (createGroupPlans md cfg).2.map (fun _ => cfg.threshold_method)

/-- `Detector._has_recorded_threshold_mode`. -/
def hasRecordedThresholdMode (md : Profile → ℚ) (cfg : DetectorConfig) : Bool :=
  (processorThresholdMethods md cfg).contains ThresholdMethod.RECORDED

inductive DetailedStatus
  | OK
  | CLOSE_RANGE_CALIBRATION_MISSING
  | CLOSE_RANGE_CALIBRATION_CONFIG_MISMATCH
  | RECORDED_THRESHOLD_MISSING
  | RECORDED_THRESHOLD_CONFIG_MISMATCH
  | INVALID_DETECTOR_CONFIG_RANGE
deriving DecidableEq, Repr

structure DetectorStatus where
  detector_state : DetailedStatus
  ready_to_calibrate_close_range : Bool
  ready_to_record_threshold : Bool
  ready_to_start : Bool
deriving DecidableEq, Repr

/-- `DetectorContext`, over an abstract session-config type `SC`; numeric
payloads are kept as lists of exact rationals. -/
structure DetectorContext (SC : Type) where
  offset_m : Option ℚ := none
  direct_leakage : Option (List Cplx) := none
  phase_jitter_comp_reference : Option (List ℚ) := none
  recorded_thresholds_mean_sweep : Option (List (List ℚ)) := none
  recorded_thresholds_noise_std : Option (List (List ℚ)) := none
  bg_noise_std : Option (List (List ℚ)) := none
  recorded_threshold_session_config_used : Option SC := none
  close_range_session_config_used : Option SC := none
  reference_temperature : Option Int := none

/-- `Detector._close_range_calibrated`: raises `RuntimeError` when exactly
one of `direct_leakage` and `phase_jitter_comp_reference` is present. -/
def closeRangeCalibrated {SC : Type} (ctx : DetectorContext SC) :
    Except String Bool :=
  if ctx.direct_leakage.isSome ≠ ctx.phase_jitter_comp_reference.isSome then
    Except.error "RuntimeError"
  else Except.ok (ctx.direct_leakage.isSome && ctx.phase_jitter_comp_reference.isSome)

/-- `Detector._recorded_threshold_calibrated`. -/
def recordedThresholdCalibrated {SC : Type} (ctx : DetectorContext SC) : Bool :=
  ctx.recorded_thresholds_mean_sweep.isSome &&
    ctx.recorded_thresholds_noise_std.isSome

/-- `Detector.get_detector_status`, with `scOf` the session-config component
of `_detector_to_session_config_and_processor_specs` and `md` the
leakage-free distance table; the branching follows the source line by line,
and `ready_to_start` is `detector_state == OK`. -/
def getDetectorStatus {SC : Type} [DecidableEq SC]
    (scOf : DetectorConfig → SC) (md : Profile → ℚ) (cfg : DetectorConfig)
    (ctx : DetectorContext SC) : Except String DetectorStatus :=
  if ¬ validDetectorConfigRange cfg then
    Except.ok ⟨.INVALID_DETECTOR_CONFIG_RANGE, false, false, false⟩
  else
    let session_config := scOf cfg
    if hasCloseRangeMeasurement md cfg then
      match closeRangeCalibrated ctx with
      | Except.error e => Except.error e
      | Except.ok cal =>
        if cal then
          if some session_config ≠ ctx.close_range_session_config_used then
            Except.ok ⟨.CLOSE_RANGE_CALIBRATION_CONFIG_MISMATCH, true, false, false⟩
          else if ¬ recordedThresholdCalibrated ctx then
            Except.ok ⟨.RECORDED_THRESHOLD_MISSING, true, true, false⟩
          else if some session_config ≠ ctx.recorded_threshold_session_config_used then
            Except.ok ⟨.RECORDED_THRESHOLD_CONFIG_MISMATCH, true, false, false⟩
          else
            Except.ok ⟨.OK, true, true, true⟩
        else
          Except.ok ⟨.CLOSE_RANGE_CALIBRATION_MISSING, true, false, false⟩
    else
      if hasRecordedThresholdMode md cfg then
        if recordedThresholdCalibrated ctx then
          if some session_config ≠ ctx.recorded_threshold_session_config_used then
            Except.ok ⟨.RECORDED_THRESHOLD_CONFIG_MISMATCH, false, true, false⟩
          else
            Except.ok ⟨.OK, false, true, true⟩
        else
          Except.ok ⟨.RECORDED_THRESHOLD_MISSING, false, true, false⟩
      else
        Except.ok ⟨.OK, false, false, true⟩

/-- `Detector.calibrate_close_range`: the context mutation performed after a
successful acquisition (lines 239-244 of `_detector.py`).
`_validate_ready_for_calibration` raises when the detector is started;
`directLeakage` and `pjcr` are the processor result's artifacts (the phase
jitter reference is asserted present) and `sessionConfig` is the live
`self.session_config`. -/
def calibrateCloseRange {SC : Type} (started : Bool) (ctx : DetectorContext SC)
    (directLeakage : Option (List Cplx)) (pjcr : List ℚ) (sessionConfig : SC) :
    Except String (DetectorContext SC) :=
  if started then Except.error "Already started"
  else Except.ok { ctx with
    direct_leakage := directLeakage,
    phase_jitter_comp_reference := some pjcr,
    close_range_session_config_used := some sessionConfig,
    recorded_thresholds_mean_sweep := none,
    recorded_thresholds_noise_std := none }

theorem validDetectorConfigRange_iff (cfg : DetectorConfig) :
    validDetectorConfigRange cfg = true ↔ 0 < cfg.start_m ∧ cfg.end_m < 17 := by
  simp [validDetectorConfigRange, MIN_DIST_M, MAX_DIST_M]

/-- C1 (amended form): the configuration-range error is reported exactly when
the range check `0 < start_m and end_m < 17` fails — the bounds are strict
(`start_m = 0` or `end_m = 17` are rejected) and `start_m < end_m` is not
checked; when the check passes, no range error is reported (the status is
another state, or the `RuntimeError` of the context invariant), and when it
fails the status is `INVALID_DETECTOR_CONFIG_RANGE` with nothing ready and
`ready_to_start = False`, so `start()` refuses to run. -/
theorem detector_config_range_validation {SC : Type} [DecidableEq SC]
    (scOf : DetectorConfig → SC) (md : Profile → ℚ) (cfg : DetectorConfig)
    (ctx : DetectorContext SC) :
    getDetectorStatus scOf md cfg ctx =
        Except.ok ⟨.INVALID_DETECTOR_CONFIG_RANGE, false, false, false⟩ ↔
      ¬ (0 < cfg.start_m ∧ cfg.end_m < 17) := by
  by_cases hv : validDetectorConfigRange cfg = true
  · constructor
    · intro h
      exfalso
      unfold getDetectorStatus at h
      rw [if_neg (by simp [hv])] at h
      iterate 5 (repeat' split at h
                 all_goals try simp_all)
    · intro hcon
      exact absurd ((validDetectorConfigRange_iff cfg).mp hv) hcon
  · constructor
    · intro _
      intro hc
      exact hv ((validDetectorConfigRange_iff cfg).mpr hc)
    · intro _
      unfold getDetectorStatus
      rw [if_pos (by simpa using hv)]

/-- C1 witness: `detector_config_range_validation` applied to the fixed
config `start_m = 0, end_m = 3` (range check fails) over the trivial
session-config type. -/
theorem detector_config_range_validation_witness :
    getDetectorStatus (fun _ => ()) MIN_LEAKAGE_FREE_DIST_M
        ⟨0, 3, .P5, .FIXED⟩ ({} : DetectorContext Unit) =
      Except.ok ⟨.INVALID_DETECTOR_CONFIG_RANGE, false, false, false⟩ :=
  (detector_config_range_validation (fun _ => ()) MIN_LEAKAGE_FREE_DIST_M
    ⟨0, 3, .P5, .FIXED⟩ ({} : DetectorContext Unit)).mpr (by decide)

/-- C1, counterexample to the claim as stated: the config
`start_m = 2, end_m = 1` has `start_m ≥ end_m`, so the claim requires a range
error, but the code accepts it (`0 < 2` and `1 < 17` both hold) and reports
`OK`; and the config `start_m = 0, end_m = 3` has both endpoints inside
`[0, 17]` with `start_m < end_m`, so the claim requires no range error, but
the code reports `INVALID_DETECTOR_CONFIG_RANGE` (the lower bound is
strict). -/
theorem detector_config_range_counterexample :
    getDetectorStatus (fun _ => ()) MIN_LEAKAGE_FREE_DIST_M
        ⟨2, 1, .P5, .FIXED⟩ ({} : DetectorContext Unit) =
      Except.ok ⟨.OK, false, false, true⟩ ∧
    (2 : ℚ) ≥ 1 ∧
    getDetectorStatus (fun _ => ()) MIN_LEAKAGE_FREE_DIST_M
        ⟨0, 3, .P5, .FIXED⟩ ({} : DetectorContext Unit) =
      Except.ok ⟨.INVALID_DETECTOR_CONFIG_RANGE, false, false, false⟩ ∧
    (0 : ℚ) ≤ 0 ∧ (0 : ℚ) < 3 ∧ (3 : ℚ) ≤ 17 :=
  ⟨by rfl, by decide, by rfl, by decide, by decide, by decide⟩

/-- C4 (amended form, adding the valid-range hypothesis the first status
branch imposes): for every config with a valid range whose plan contains a
close-range segment, and every context with both `direct_leakage` and
`phase_jitter_comp_reference` present but a stale
`close_range_session_config_used`, the status is
`CLOSE_RANGE_CALIBRATION_CONFIG_MISMATCH` with `ready_to_start = False`; and
the status is a pure function of `(config, context)`. -/
theorem close_range_calibration_mismatch {SC : Type} [DecidableEq SC]
    (scOf : DetectorConfig → SC) (md : Profile → ℚ) (cfg : DetectorConfig)
    (ctx : DetectorContext SC)
    (hvalid : validDetectorConfigRange cfg = true)
    (hclose : hasCloseRangeMeasurement md cfg = true)
    (hcal : closeRangeCalibrated ctx = Except.ok true)
    (hmm : some (scOf cfg) ≠ ctx.close_range_session_config_used) :
    getDetectorStatus scOf md cfg ctx =
        Except.ok ⟨.CLOSE_RANGE_CALIBRATION_CONFIG_MISMATCH, true, false, false⟩ ∧
      ∀ cfg2 ctx2, cfg2 = cfg → ctx2 = ctx →
        getDetectorStatus scOf md cfg2 ctx2 = getDetectorStatus scOf md cfg ctx := by
  refine ⟨?_, by intro cfg2 ctx2 h1 h2; rw [h1, h2]⟩
  unfold getDetectorStatus
  rw [if_neg (by simp [hvalid])]
  simp only [hclose, if_true, hcal]
  rw [if_pos hmm]

/-- C4 witness: `close_range_calibration_mismatch` at the concrete config
`start_m = 0.05, end_m = 3` (close-range segment present since
`0.05 < 0.12`) and a context with leakage calibrated but no recorded session
config. -/
theorem close_range_calibration_mismatch_witness :
    getDetectorStatus (fun _ => ()) MIN_LEAKAGE_FREE_DIST_M
        ⟨mkRat 1 20, 3, .P5, .FIXED⟩
        { direct_leakage := some [⟨1, 0⟩], phase_jitter_comp_reference := some [0] } =
      Except.ok ⟨.CLOSE_RANGE_CALIBRATION_CONFIG_MISMATCH, true, false, false⟩ :=
  (close_range_calibration_mismatch (fun _ => ()) MIN_LEAKAGE_FREE_DIST_M
    ⟨mkRat 1 20, 3, .P5, .FIXED⟩
    { direct_leakage := some [⟨1, 0⟩], phase_jitter_comp_reference := some [0] }
    (by rfl) (by rfl) (by rfl) (by simp)).1

/-- C4, counterexample to the claim as stated: the config
`start_m = 0, end_m = 3` yields a plan with a close-range segment
(`0 < 0.12`), the context has both calibration artifacts present and a stale
session config, yet `get_detector_status` returns
`INVALID_DETECTOR_CONFIG_RANGE` (the range check `0 < start_m` fails first),
not the `CLOSE_RANGE_CALIBRATION_CONFIG_MISMATCH` the claim requires. -/
theorem close_range_calibration_mismatch_counterexample :
    hasCloseRangeMeasurement MIN_LEAKAGE_FREE_DIST_M ⟨0, 3, .P5, .FIXED⟩ = true ∧
      closeRangeCalibrated
        ({ direct_leakage := some [⟨1, 0⟩], phase_jitter_comp_reference := some [0] } :
          DetectorContext Unit) = Except.ok true ∧
      some ((fun _ => ()) (⟨0, 3, .P5, .FIXED⟩ : DetectorConfig)) ≠
        ({ direct_leakage := some [⟨1, 0⟩], phase_jitter_comp_reference := some [0] } :
          DetectorContext Unit).close_range_session_config_used ∧
      getDetectorStatus (fun _ => ()) MIN_LEAKAGE_FREE_DIST_M ⟨0, 3, .P5, .FIXED⟩
        { direct_leakage := some [⟨1, 0⟩], phase_jitter_comp_reference := some [0] } =
        Except.ok ⟨.INVALID_DETECTOR_CONFIG_RANGE, false, false, false⟩ :=
  ⟨by rfl, by rfl, by simp, by rfl⟩

/-- C9: after every successful `calibrate_close_range`, the context holds the
measured direct leakage and the phase-jitter reference, records the live
session config as `close_range_session_config_used`, resets both recorded
threshold fields to `None`, and leaves `offset_m`, `bg_noise_std`,
`recorded_threshold_session_config_used` and `reference_temperature`
unchanged. -/
theorem calibrate_close_range_effect {SC : Type} (started : Bool)
    (ctx : DetectorContext SC) (dl : Option (List Cplx)) (pjcr : List ℚ)
    (sc : SC) (ctx2 : DetectorContext SC)
    (h : calibrateCloseRange started ctx dl pjcr sc = Except.ok ctx2) :
    ctx2.direct_leakage = dl ∧
      ctx2.phase_jitter_comp_reference = some pjcr ∧
      ctx2.close_range_session_config_used = some sc ∧
      ctx2.recorded_thresholds_mean_sweep = none ∧
      ctx2.recorded_thresholds_noise_std = none ∧
      ctx2.offset_m = ctx.offset_m ∧
      ctx2.bg_noise_std = ctx.bg_noise_std ∧
      ctx2.recorded_threshold_session_config_used =
        ctx.recorded_threshold_session_config_used ∧
      ctx2.reference_temperature = ctx.reference_temperature := by
  unfold calibrateCloseRange at h
  split at h
  · exact absurd h (by simp)
  · have h2 := Except.ok.inj h
    rw [← h2]
    exact ⟨rfl, rfl, rfl, rfl, rfl, rfl, rfl, rfl, rfl⟩

/-- C9 witness: `calibrate_close_range_effect` on the empty context with a
concrete measured leakage sweep and phase reference. -/
theorem calibrate_close_range_effect_witness :
    ({ direct_leakage := some [⟨1, 0⟩], phase_jitter_comp_reference := some [0],
        close_range_session_config_used := some () } :
      DetectorContext Unit).recorded_thresholds_mean_sweep = none ∧
    ({ direct_leakage := some [⟨1, 0⟩], phase_jitter_comp_reference := some [0],
        close_range_session_config_used := some () } :
      DetectorContext Unit).offset_m = ({} : DetectorContext Unit).offset_m :=
  have h := calibrate_close_range_effect false ({} : DetectorContext Unit)
    (some [⟨1, 0⟩]) [0] ()
    { direct_leakage := some [⟨1, 0⟩], phase_jitter_comp_reference := some [0],
      close_range_session_config_used := some () } (by rfl)
  ⟨h.2.2.2.1, h.2.2.2.2.2.1⟩

/-- C10 (amended form, adding the valid-range hypothesis the first status
branch imposes): for every config with a valid range whose plan contains a
close-range segment, and every context where exactly one of `direct_leakage`
and `phase_jitter_comp_reference` is present, `get_detector_status` raises
`RuntimeError` instead of returning a status. -/
theorem one_sided_close_range_context_raises {SC : Type} [DecidableEq SC]
    (scOf : DetectorConfig → SC) (md : Profile → ℚ) (cfg : DetectorConfig)
    (ctx : DetectorContext SC)
    (hvalid : validDetectorConfigRange cfg = true)
    (hclose : hasCloseRangeMeasurement md cfg = true)
    (h : ctx.direct_leakage.isSome ≠ ctx.phase_jitter_comp_reference.isSome) :
    getDetectorStatus scOf md cfg ctx = Except.error "RuntimeError" := by
  have hcal : closeRangeCalibrated ctx = Except.error "RuntimeError" := by
    unfold closeRangeCalibrated
    rw [if_pos h]
  unfold getDetectorStatus
  rw [if_neg (by simp [hvalid])]
  simp only [hclose, if_true, hcal]

/-- C10 witness: `one_sided_close_range_context_raises` at the concrete valid
config `start_m = 0.05, end_m = 3` and a context holding only the direct
leakage. -/
theorem one_sided_close_range_context_raises_witness :
    getDetectorStatus (fun _ => ()) MIN_LEAKAGE_FREE_DIST_M
        ⟨mkRat 1 20, 3, .P5, .FIXED⟩
        ({ direct_leakage := some [⟨1, 0⟩] } : DetectorContext Unit) =
      Except.error "RuntimeError" :=
  one_sided_close_range_context_raises (fun _ => ()) MIN_LEAKAGE_FREE_DIST_M
    ⟨mkRat 1 20, 3, .P5, .FIXED⟩ { direct_leakage := some [⟨1, 0⟩] }
    (by rfl) (by rfl) (by decide)

/-- C10, counterexample to the claim as stated: the config
`start_m = 0, end_m = 3` yields a plan with a close-range segment, the
context holds only `direct_leakage` (the other artifact is `None`), yet
`get_detector_status` does not raise — it returns the
`INVALID_DETECTOR_CONFIG_RANGE` status, because the range check runs before
`_close_range_calibrated`. -/
theorem one_sided_close_range_context_counterexample :
    hasCloseRangeMeasurement MIN_LEAKAGE_FREE_DIST_M ⟨0, 3, .P5, .FIXED⟩ = true ∧
      ({ direct_leakage := some [⟨1, 0⟩] } :
        DetectorContext Unit).direct_leakage.isSome = true ∧
      ({ direct_leakage := some [⟨1, 0⟩] } :
        DetectorContext Unit).phase_jitter_comp_reference.isSome = false ∧
      getDetectorStatus (fun _ => ()) MIN_LEAKAGE_FREE_DIST_M ⟨0, 3, .P5, .FIXED⟩
        ({ direct_leakage := some [⟨1, 0⟩] } : DetectorContext Unit) =
        Except.ok ⟨.INVALID_DETECTOR_CONFIG_RANGE, false, false, false⟩ :=
  ⟨by rfl, by rfl, by rfl, by rfl⟩

/-! ## Segment tiling (claim C3)

The far-range plans over an explicit profile chain ending in the max
profile. -/

def farPlansOf (md : Profile → ℚ) (startM endM : ℚ) (chain : List Profile)
    (maxp : Profile) (n : ℕ) : List GroupPlanM :=
  transitionPlansOf md startM endM chain ++ maxPlansOf md startM endM maxp n

theorem linspace_headD (a b : ℚ) (n : ℕ) : (linspace a b n).headD 0 = a := by
  unfold linspace
  rw [List.range_succ_eq_map]
  simp

theorem linspace_getLastD (a b : ℚ) {n : ℕ} (hn : n ≠ 0) :
    (linspace a b n).getLastD 0 = b := by
  unfold linspace
  rw [List.range_succ, List.map_append]
  simp only [List.map_cons, List.map_nil]
  rw [List.getLastD_concat]
  rw [mul_div_assoc, div_self (by exact_mod_cast hn), mul_one]
  ring

theorem farPlansOf_cons_cons (md : Profile → ℚ) (a b : ℚ) (maxp : Profile)
    (n : ℕ) (q q2 : Profile) (rest : List Profile) :
    farPlansOf md a b (q :: q2 :: rest) maxp n =
      (if a < md q2 ∧ md q < b then
        [GroupPlanM.mk q [max (md q) a, min b (md q2)]] else []) ++
        farPlansOf md a b (q2 :: rest) maxp n := by
  by_cases hT : a < md q2 ∧ md q < b
  · simp [farPlansOf, transitionPlansOf, List.filterMap_cons, if_pos hT]
  · simp [farPlansOf, transitionPlansOf, List.filterMap_cons, if_neg hT]

theorem farPlansOf_cover (md : Profile → ℚ) (a b : ℚ) (maxp : Profile) (n : ℕ)
    (hab : a < b) (hn : n ≠ 0) :
    ∀ (rest : List Profile) (q : Profile), rest.getLastD q = maxp →
      ∀ x : ℚ, max a (md q) ≤ x → x ≤ b → md q < b →
        ∃ p ∈ farPlansOf md a b (q :: rest) maxp n,
          planCoreLo p ≤ x ∧ x ≤ planCoreHi p := by
  intro rest
  induction rest with
  | nil =>
    intro q hlast x hx1 hx2 hqb
    have hq : q = maxp := hlast
    subst hq
    refine ⟨⟨q, linspace (max a (md q)) b n⟩, ?_, ?_, ?_⟩
    · have ht : transitionPlansOf md a b [q] = [] := rfl
      simp [farPlansOf, ht, maxPlansOf, if_pos hqb]
    · show (linspace (max a (md q)) b n).headD 0 ≤ x
      rw [linspace_headD]
      exact hx1
    · show x ≤ (linspace (max a (md q)) b n).getLastD 0
      rw [linspace_getLastD _ _ hn]
      exact hx2
  | cons q2 rest ih =>
    intro q hlast x hx1 hx2 hqb
    have hlast' : rest.getLastD q2 = maxp := by
      rw [List.getLastD_cons] at hlast
      exact hlast
    have hax : a ≤ x := le_trans (le_max_left _ _) hx1
    by_cases hT : a < md q2 ∧ md q < b
    · by_cases hx3 : x ≤ min b (md q2)
      · refine ⟨⟨q, [max (md q) a, min b (md q2)]⟩, ?_, ?_, ?_⟩
        · rw [farPlansOf_cons_cons, if_pos hT]
          exact List.mem_append_left _ (List.mem_singleton_self _)
        · show max (md q) a ≤ x
          rw [max_comm]
          exact hx1
        · exact hx3
      · push_neg at hx3
        have hq2x : md q2 < x := by
          rcases le_total b (md q2) with hbq | hqb2
          · rw [min_eq_left hbq] at hx3
            exact absurd hx3 (not_lt.mpr hx2)
          · rwa [min_eq_right hqb2] at hx3
        have hq2b : md q2 < b := lt_of_lt_of_le hq2x hx2
        obtain ⟨p, hp, hlo, hhi⟩ := ih q2 hlast' x
          (max_le hax (le_of_lt hq2x)) hx2 hq2b
        refine ⟨p, ?_, hlo, hhi⟩
        rw [farPlansOf_cons_cons]
        exact List.mem_append_right _ hp
    · have ha2 : md q2 ≤ a := by
        by_contra hc
        push_neg at hc
        exact hT ⟨hc, hqb⟩
      have hq2b : md q2 < b := lt_of_le_of_lt ha2 hab
      obtain ⟨p, hp, hlo, hhi⟩ := ih q2 hlast' x
        (max_le hax (le_trans ha2 hax)) hx2 hq2b
      refine ⟨p, ?_, hlo, hhi⟩
      rw [farPlansOf_cons_cons, if_neg hT]
      exact List.mem_append_right _ hp

theorem farPlansOf_lower_bound (md : Profile → ℚ) (a b : ℚ) (maxp : Profile)
    (n : ℕ) :
    ∀ (rest : List Profile) (q : Profile), rest.getLastD q = maxp →
      List.Chain' (fun p p2 => md p ≤ md p2) (q :: rest) →
      ∀ pl ∈ farPlansOf md a b (q :: rest) maxp n, md q ≤ planCoreLo pl := by
  intro rest
  induction rest with
  | nil =>
    intro q hlast _ pl hpl
    have hq : q = maxp := hlast
    subst hq
    have ht : transitionPlansOf md a b [q] = [] := rfl
    rw [farPlansOf, ht, List.nil_append] at hpl
    unfold maxPlansOf at hpl
    split at hpl
    · rcases List.mem_singleton.mp hpl with rfl
      show md q ≤ (linspace (max a (md q)) b n).headD 0
      rw [linspace_headD]
      exact le_max_right _ _
    · cases hpl
  | cons q2 rest ih =>
    intro q hlast hchain pl hpl
    have hlast' : rest.getLastD q2 = maxp := by
      rw [List.getLastD_cons] at hlast
      exact hlast
    have hq12 : md q ≤ md q2 := (List.chain'_cons.mp hchain).1
    have hchain' : List.Chain' (fun p p2 => md p ≤ md p2) (q2 :: rest) :=
      (List.chain'_cons.mp hchain).2
    rw [farPlansOf_cons_cons] at hpl
    rcases List.mem_append.mp hpl with h | h
    · split at h
      · rcases List.mem_singleton.mp h with rfl
        show md q ≤ max (md q) a
        exact le_max_left _ _
      · cases h
    · exact le_trans hq12 (ih q2 hlast' hchain' pl h)

theorem farPlansOf_pairwise (md : Profile → ℚ) (a b : ℚ) (maxp : Profile)
    (n : ℕ) :
    ∀ (rest : List Profile) (q : Profile), rest.getLastD q = maxp →
      List.Chain' (fun p p2 => md p ≤ md p2) (q :: rest) →
      List.Pairwise (fun p1 p2 => planCoreHi p1 ≤ planCoreLo p2)
        (farPlansOf md a b (q :: rest) maxp n) := by
  intro rest
  induction rest with
  | nil =>
    intro q hlast _
    have ht : transitionPlansOf md a b [q] = [] := rfl
    rw [farPlansOf, ht, List.nil_append]
    unfold maxPlansOf
    split
    · exact List.pairwise_singleton _ _
    · exact List.Pairwise.nil
  | cons q2 rest ih =>
    intro q hlast hchain
    have hlast' : rest.getLastD q2 = maxp := by
      rw [List.getLastD_cons] at hlast
      exact hlast
    have hchain' : List.Chain' (fun p p2 => md p ≤ md p2) (q2 :: rest) :=
      (List.chain'_cons.mp hchain).2
    rw [farPlansOf_cons_cons]
    rw [List.pairwise_append]
    refine ⟨?_, ih q2 hlast' hchain', ?_⟩
    · split
      · exact List.pairwise_singleton _ _
      · exact List.Pairwise.nil
    · intro p1 hp1 p2 hp2
      have hlo2 : md q2 ≤ planCoreLo p2 :=
        farPlansOf_lower_bound md a b maxp n rest q2 hlast' hchain' p2 hp2
      split at hp1
      · rcases List.mem_singleton.mp hp1 with rfl
        show ([max (md q) a, min b (md q2)] : List ℚ).getLastD 0 ≤ _
        exact le_trans (by show min b (md q2) ≤ md q2; exact min_le_right _ _) hlo2
      · cases hp1

theorem transitionProfiles_eq (cfg : DetectorConfig) :
    ∃ rest : List Profile, transitionProfiles cfg = Profile.P1 :: rest ∧
      rest.getLastD Profile.P1 = cfg.max_profile := by
  cases hm : cfg.max_profile
  · exact ⟨[], by simp [transitionProfiles, hm, Profile.val], by rfl⟩
  · exact ⟨[.P2], by simp [transitionProfiles, hm, Profile.val], by rfl⟩
  · exact ⟨[.P3], by simp [transitionProfiles, hm, Profile.val], by rfl⟩
  · exact ⟨[.P3, .P4], by simp [transitionProfiles, hm, Profile.val], by rfl⟩
  · exact ⟨[.P3, .P5], by simp [transitionProfiles, hm, Profile.val], by rfl⟩

theorem transitionProfiles_chain (md : Profile → ℚ) (cfg : DetectorConfig)
    (hmono : ∀ p q : Profile, p.val ≤ q.val → md p ≤ md q) :
    List.Chain' (fun p p2 => md p ≤ md p2) (transitionProfiles cfg) := by
  cases hm : cfg.max_profile
  · have h : transitionProfiles cfg = [Profile.P1] := by
      simp [transitionProfiles, hm, Profile.val]
    rw [h]
    exact List.chain'_singleton _
  · have h : transitionProfiles cfg = [Profile.P1, Profile.P2] := by
      simp [transitionProfiles, hm, Profile.val]
    rw [h]
    exact List.chain'_cons.mpr ⟨hmono _ _ (by decide), List.chain'_singleton _⟩
  · have h : transitionProfiles cfg = [Profile.P1, Profile.P3] := by
      simp [transitionProfiles, hm, Profile.val]
    rw [h]
    exact List.chain'_cons.mpr ⟨hmono _ _ (by decide), List.chain'_singleton _⟩
  · have h : transitionProfiles cfg = [Profile.P1, Profile.P3, Profile.P4] := by
      simp [transitionProfiles, hm, Profile.val]
    rw [h]
    exact List.chain'_cons.mpr ⟨hmono _ _ (by decide),
      List.chain'_cons.mpr ⟨hmono _ _ (by decide), List.chain'_singleton _⟩⟩
  · have h : transitionProfiles cfg = [Profile.P1, Profile.P3, Profile.P5] := by
      simp [transitionProfiles, hm, Profile.val]
    rw [h]
    exact List.chain'_cons.mpr ⟨hmono _ _ (by decide),
      List.chain'_cons.mpr ⟨hmono _ _ (by decide), List.chain'_singleton _⟩⟩

theorem createGroupPlans_snd (md : Profile → ℚ) (cfg : DetectorConfig) :
    (createGroupPlans md cfg).2 =
      farPlansOf md cfg.start_m cfg.end_m (transitionProfiles cfg)
        cfg.max_profile
        (NUM_SUBSWEEPS_IN_SENSOR_CONFIG - (transitionGroupPlans md cfg).length) :=
  rfl

theorem numRemaining_ne_zero (md : Profile → ℚ) (cfg : DetectorConfig) :
    NUM_SUBSWEEPS_IN_SENSOR_CONFIG - (transitionGroupPlans md cfg).length ≠ 0 := by
  have h1 : (transitionGroupPlans md cfg).length ≤ 2 := by
    unfold transitionGroupPlans transitionPlansOf
    refine le_trans (List.length_filterMap_le _ _) ?_
    cases hm : cfg.max_profile <;>
      simp [transitionProfiles, hm, Profile.val]
  unfold NUM_SUBSWEEPS_IN_SENSOR_CONFIG
  omega

theorem closeGroupPlans_pos (md : Profile → ℚ) (cfg : DetectorConfig)
    (hc : cfg.start_m < md Profile.P1) :
    (createGroupPlans md cfg).1 =
      [⟨Profile.P1, [cfg.start_m, md Profile.P1]⟩] := by
  unfold createGroupPlans
  rw [if_pos hc]

theorem closeGroupPlans_neg (md : Profile → ℚ) (cfg : DetectorConfig)
    (hc : ¬ cfg.start_m < md Profile.P1) :
    (createGroupPlans md cfg).1 = [] := by
  unfold createGroupPlans
  rw [if_neg hc]

/-- C3: for every valid configuration (`0 < start_m`, `end_m < 17`,
`start_m < end_m`, any `max_profile`) and every monotone leakage-free
distance table, the core (non-margin) breakpoint regions of the planned
segments cover the whole interval `[start_m, end_m]` with no gaps, and the
core regions of distinct segments have disjoint interiors. -/
theorem range_plan_core_tiling (md : Profile → ℚ) (cfg : DetectorConfig)
    (hmono : ∀ p q : Profile, p.val ≤ q.val → md p ≤ md q)
    (hstart : 0 < cfg.start_m) (hend : cfg.end_m < 17)
    (hlt : cfg.start_m < cfg.end_m) :
    (∀ x : ℚ, cfg.start_m ≤ x → x ≤ cfg.end_m →
      ∃ p ∈ allGroupPlans md cfg, planCoreLo p ≤ x ∧ x ≤ planCoreHi p) ∧
      List.Pairwise (fun p1 p2 => ∀ x : ℚ,
        ¬(planCoreLo p1 < x ∧ x < planCoreHi p1 ∧
          planCoreLo p2 < x ∧ x < planCoreHi p2)) (allGroupPlans md cfg) := by
  obtain ⟨rest, hchain_eq, hlast⟩ := transitionProfiles_eq cfg
  have hchain := transitionProfiles_chain md cfg hmono
  rw [hchain_eq] at hchain
  have hn := numRemaining_ne_zero md cfg
  have hfar : (createGroupPlans md cfg).2 =
      farPlansOf md cfg.start_m cfg.end_m (Profile.P1 :: rest) cfg.max_profile
        (NUM_SUBSWEEPS_IN_SENSOR_CONFIG - (transitionGroupPlans md cfg).length) := by
    rw [createGroupPlans_snd, hchain_eq]
  constructor
  · intro x hx1 hx2
    unfold allGroupPlans
    by_cases hc : cfg.start_m < md Profile.P1
    · by_cases hxm : x ≤ md Profile.P1
      · refine ⟨⟨Profile.P1, [cfg.start_m, md Profile.P1]⟩, ?_, hx1, hxm⟩
        refine List.mem_append_left _ ?_
        rw [closeGroupPlans_pos md cfg hc]
        exact List.mem_singleton_self _
      · push_neg at hxm
        obtain ⟨p, hp, hlo, hhi⟩ := farPlansOf_cover md cfg.start_m cfg.end_m
          cfg.max_profile _ hlt hn rest Profile.P1 hlast x
          (max_le hx1 (le_of_lt hxm)) hx2 (lt_of_lt_of_le hxm hx2)
        refine ⟨p, List.mem_append_right _ ?_, hlo, hhi⟩
        rw [hfar]
        exact hp
    · push_neg at hc
      obtain ⟨p, hp, hlo, hhi⟩ := farPlansOf_cover md cfg.start_m cfg.end_m
        cfg.max_profile _ hlt hn rest Profile.P1 hlast x
        (max_le hx1 (le_trans hc hx1)) hx2 (lt_of_le_of_lt hc hlt)
      refine ⟨p, List.mem_append_right _ ?_, hlo, hhi⟩
      rw [hfar]
      exact hp
  · have hall : List.Pairwise (fun p1 p2 => planCoreHi p1 ≤ planCoreLo p2)
        (allGroupPlans md cfg) := by
      unfold allGroupPlans
      rw [List.pairwise_append]
      refine ⟨?_, ?_, ?_⟩
      · by_cases hc : cfg.start_m < md Profile.P1
        · rw [closeGroupPlans_pos md cfg hc]
          exact List.pairwise_singleton _ _
        · rw [closeGroupPlans_neg md cfg hc]
          exact List.Pairwise.nil
      · rw [hfar]
        exact farPlansOf_pairwise md cfg.start_m cfg.end_m cfg.max_profile _
          rest Profile.P1 hlast hchain
      · intro c hcmem p hpmem
        by_cases hc : cfg.start_m < md Profile.P1
        · rw [closeGroupPlans_pos md cfg hc] at hcmem
          rcases List.mem_singleton.mp hcmem with rfl
          rw [hfar] at hpmem
          have hlb := farPlansOf_lower_bound md cfg.start_m cfg.end_m
            cfg.max_profile _ rest Profile.P1 hlast hchain p hpmem
          exact hlb
        · rw [closeGroupPlans_neg md cfg hc] at hcmem
          cases hcmem
    refine hall.imp ?_
    intro p1 p2 hle x hx
    obtain ⟨h1, h2, h3, h4⟩ := hx
    linarith

/-- C3 witness: `range_plan_core_tiling` at the concrete fixed-threshold
config `start_m = 1/4, end_m = 3, max_profile = PROFILE_5` with the concrete
(monotone) leakage-free distance table, specialized to the sample point
`x = 1/2` of the requested interval. -/
theorem range_plan_core_tiling_witness :
    allGroupPlans MIN_LEAKAGE_FREE_DIST_M ⟨mkRat 1 4, 3, .P5, .FIXED⟩ ≠ [] := by
  obtain ⟨p, hp, -, -⟩ :=
    (range_plan_core_tiling MIN_LEAKAGE_FREE_DIST_M ⟨mkRat 1 4, 3, .P5, .FIXED⟩
      (by decide) (by decide) (by decide) (by decide)).1
      (mkRat 1 2) (by decide) (by decide)
  intro h
  rw [h] at hp
  cases hp

end Gentry
